import Mathlib

/-!
Verification of the `cf-mailer` SMTP submission client.

The development shallowly embeds the TypeScript sources:

* `dot-stuff.ts` — RFC 5321 dot-stuffing (`dotStuff`);
* `read-smtp-response.ts` — the SMTP reply reader (`readSmtpResponse`),
  including a model of JavaScript's `Number()` string conversion, which the
  reader uses to parse the 3-character status-code prefix;
* `get-smtp-secure-transport.ts` — transport-mode selection;
* `parse-smtp-capabilities.ts` — EHLO capability extraction;
* `smtp-auth.ts` — AUTH PLAIN / AUTH LOGIN negotiation;
* `smtp-send-mail.ts` — the session orchestrator;
* `validate-send-mail-input.ts` / `client.ts` — input validation and the
  public `send` operation.

Strings crossing the wire are modelled as Lean `String` / `List Char`
(JavaScript UTF-16 code units; every string involved here is ASCII, where
the two notions agree).  The network is modelled as explicit data: the
reply reader consumes a list of decoded text chunks, and the orchestrator
consumes a list of already-parsed replies and records an event trace of
connects, writes, the TLS upgrade and socket close.
-/

deriving instance DecidableEq for Except

namespace CfMailer

/-! ## JavaScript `Number()` on strings

`read-smtp-response.ts` computes `Number(first.slice(0, 3))` and rejects the
reply only when the result is not finite (or the slice is shorter than
3 characters).  To settle claims about that check we model ECMAScript's
`StringToNumber` exactly on the grammar it accepts: optional whitespace,
an optional sign with a decimal literal (digits, optional fraction dot,
optional exponent, or the literal `Infinity`), or an unsigned `0x`/`0o`/`0b`
radix literal.  Values are represented in `ℚ`; the reader only compares the
parsed code against small integer constants, on which `ℚ` and IEEE doubles
agree. -/

/-- Result of JavaScript number conversion: not-a-number, an infinity, or a
finite value. -/
inductive JsNum where
  | nan : JsNum
  | posInf : JsNum
  | negInf : JsNum
  | val (q : ℚ) : JsNum
deriving DecidableEq

/-- Characters treated as whitespace by ECMAScript `StringToNumber`
(`StrWhiteSpaceChar`: WhiteSpace and LineTerminator). -/
def jsWhitespaceChars : List Char :=
  ['\t', '\n', '\x0b', '\x0c', '\r', ' ', Char.ofNat 0xa0, Char.ofNat 0x1680,
   Char.ofNat 0x2000, Char.ofNat 0x2001, Char.ofNat 0x2002, Char.ofNat 0x2003,
   Char.ofNat 0x2004, Char.ofNat 0x2005, Char.ofNat 0x2006, Char.ofNat 0x2007,
   Char.ofNat 0x2008, Char.ofNat 0x2009, Char.ofNat 0x200a, Char.ofNat 0x2028,
   Char.ofNat 0x2029, Char.ofNat 0x202f, Char.ofNat 0x205f, Char.ofNat 0x3000,
   Char.ofNat 0xfeff]

/-- Is `c` ECMAScript string-numeric-literal whitespace? -/
def isJsWS (c : Char) : Bool := jsWhitespaceChars.contains c

/-- ASCII decimal digit test (`0`–`9`). -/
def isDigitC (c : Char) : Bool := '0' ≤ c ∧ c ≤ '9'

/-- Value of a run of ASCII decimal digits. -/
def digitsToNat (ds : List Char) : ℕ :=
  ds.foldl (fun a c => a * 10 + (c.toNat - '0'.toNat)) 0

/-- Parse the remainder of a decimal literal as an optional exponent part
(`[eE][+-]?digits`); the remainder must be consumed entirely. -/
def parseExpPart (cs : List Char) : Option ℤ :=
  match cs with
  | [] => some 0
  | e :: rest =>
    if e = 'e' ∨ e = 'E' then
      match rest with
      | '+' :: ds =>
        if ds ≠ [] ∧ ds.all isDigitC then some (digitsToNat ds) else none
      | '-' :: ds =>
        if ds ≠ [] ∧ ds.all isDigitC then some (-(digitsToNat ds : ℤ)) else none
      | ds =>
        if ds ≠ [] ∧ ds.all isDigitC then some (digitsToNat ds) else none
    else none

/-- The value of an integer mantissa scaled by `10 ^ e` for a signed
exponent, computed in `ℕ` as far as possible so that the kernel can
evaluate integer-valued codes. -/
def applyExpNat (m : ℕ) (e : ℤ) : ℚ :=
  if 0 ≤ e then ((m * 10 ^ e.toNat : ℕ) : ℚ)
  else (m : ℚ) / ((10 ^ (-e).toNat : ℕ) : ℚ)

/-- An unsigned decimal string literal value: `Infinity` or a finite value. -/
inductive UDec where
  | inf : UDec
  | fin (q : ℚ) : UDec

/-- Parse an ECMAScript `StrUnsignedDecimalLiteral` (the whole input must be
consumed): `Infinity`, `digits [. digits] [exp]`, or `. digits [exp]`. -/
def parseUDec (cs : List Char) : Option UDec :=
  if cs = "Infinity".data then some .inf
  else
    let d1 := cs.takeWhile isDigitC
    let r1 := cs.dropWhile isDigitC
    match r1 with
    | '.' :: r2 =>
      let d2 := r2.takeWhile isDigitC
      let r3 := r2.dropWhile isDigitC
      if d1 = [] ∧ d2 = [] then none
      else
        match parseExpPart r3 with
        | none => none
        | some e =>
          some (.fin (applyExpNat (digitsToNat (d1 ++ d2)) (e - d2.length)))
    | _ =>
      if d1 = [] then none
      else
        match parseExpPart r1 with
        | none => none
        | some e => some (.fin (applyExpNat (digitsToNat d1) e))

/-- Value of one digit in a radix literal, if valid for base `b`
(16, 8 or 2). -/
def radixDigitVal (b : ℕ) (c : Char) : Option ℕ :=
  let v : Option ℕ :=
    if isDigitC c then some (c.toNat - '0'.toNat)
    else if 'a' ≤ c ∧ c ≤ 'f' then some (c.toNat - 'a'.toNat + 10)
    else if 'A' ≤ c ∧ c ≤ 'F' then some (c.toNat - 'A'.toNat + 10)
    else none
  match v with
  | some n => if n < b then some n else none
  | none => none

/-- Parse a non-empty run of base-`b` digits, consuming the whole input. -/
def parseRadix (b : ℕ) (ds : List Char) : Option ℕ :=
  if ds = [] then none
  else ds.foldl (fun acc c => acc.bind fun a => (radixDigitVal b c).map
    fun v => a * b + v) (some 0)

/-- ECMAScript `StringToNumber` (the conversion performed by `Number(s)` for
a string argument), restricted to exact rational values.  Divergence from
IEEE semantics (rounding to double, overflow of huge exponents to
`Infinity`) cannot be observed through this code base: the reader applies
the conversion to at most 3 characters, and the result is only compared
against small integers. -/
def stringToNumber (cs : List Char) : JsNum :=
  let t := ((cs.dropWhile isJsWS).reverse.dropWhile isJsWS).reverse
  match t with
  | [] => .val 0
  | '+' :: r =>
    match parseUDec r with
    | some .inf => .posInf
    | some (.fin q) => .val q
    | none => .nan
  | '-' :: r =>
    match parseUDec r with
    | some .inf => .negInf
    | some (.fin q) => .val (-q)
    | none => .nan
  | '0' :: c :: r =>
    if c = 'x' ∨ c = 'X' then
      match parseRadix 16 r with
      | some n => .val n
      | none => .nan
    else if c = 'o' ∨ c = 'O' then
      match parseRadix 8 r with
      | some n => .val n
      | none => .nan
    else if c = 'b' ∨ c = 'B' then
      match parseRadix 2 r with
      | some n => .val n
      | none => .nan
    else
      match parseUDec t with
      | some .inf => .posInf
      | some (.fin q) => .val q
      | none => .nan
  | _ =>
    match parseUDec t with
    | some .inf => .posInf
    | some (.fin q) => .val q
    | none => .nan

/-- `Number.isFinite` on the conversion result. -/
def jsIsFinite : JsNum → Bool
  | .val _ => true
  | _ => false

/-- The finite value of a `JsNum` (0 for NaN and infinities; only used after
a finiteness check). -/
def JsNum.toQ : JsNum → ℚ
  | .val q => q
  | _ => 0

/-! ## Dot-stuffing (`dot-stuff.ts`)

`dotStuff` is `message.split(CRLF).map(line => line.startsWith(".") ?
"." + line : line).join(CRLF)`.  We model JavaScript `split`/`join` on a
two-character separator over `List Char`: `split` scans left to right and
breaks at each (leftmost, non-overlapping) occurrence of `"\r\n"`. -/

/-- JavaScript `s.split("\r\n")` on code units: break at each leftmost
occurrence of CR LF. -/
def splitCRLF : List Char → List (List Char)
  | [] => [[]]
  | '\r' :: '\n' :: rest => [] :: splitCRLF rest
  | c :: rest =>
    match splitCRLF rest with
    | [] => [[c]]
    | l :: ls => (c :: l) :: ls

/-- JavaScript `parts.join("\r\n")`. -/
def joinCRLF : List (List Char) → List Char
  | [] => []
  | [l] => l
  | l :: ls => l ++ '\r' :: '\n' :: joinCRLF ls

/-- Does the character list contain a CR LF pair? -/
def hasCRLF : List Char → Bool
  | '\r' :: '\n' :: _ => true
  | _ :: rest => hasCRLF rest
  | [] => false

/-- The per-line transform of `dotStuff`: a line beginning with `.` gets one
more `.` prefixed; other lines are unchanged. -/
def stuffLine (l : List Char) : List Char :=
  if l.head? = some '.' then '.' :: l else l

/-- `dotStuff` from `dot-stuff.ts`: split on CRLF, stuff each line, rejoin
with CRLF. -/
def dotStuff (message : List Char) : List Char :=
  joinCRLF ((splitCRLF message).map stuffLine)

/-- `dotStuff` lifted to `String`, as used by the orchestrator. -/
def dotStuffStr (message : String) : String :=
  ⟨dotStuff message.data⟩

/-! ## The SMTP reply reader (`read-smtp-response.ts`)

The reader pulls chunks from the transport into a **local** line buffer,
extracts `\n`-terminated lines (stripping `\r?\n`), parses the first line's
3-character prefix with `Number`, and for a multi-line reply (4th character
`-`) keeps reading lines until one starts with the code digits followed by
a space.  The stream is modelled as the list of decoded text chunks the
transport delivers, in order; `result.done` corresponds to the chunk list
running out. -/

/-- A chunked input stream: each element is the decoded text of one
transport read. -/
abbrev Chunks := List (List Char)

/-- Errors of the reply reader: the transport ended mid-reply, or the first
line failed the status-code check. -/
inductive ReadErr where
  | closed : ReadErr
  | malformed (line : List Char) : ReadErr
deriving DecidableEq

/-- A parsed SMTP reply: the numeric status code and all reply lines. -/
structure RawReply where
  code : ℚ
  lines : List (List Char)
deriving DecidableEq

/-- Sum of chunk lengths, used as the termination measure of the reader. -/
def chunksWeight (cs : Chunks) : ℕ :=
  (cs.map List.length).sum + cs.length

/-- Strip the trailing `\r` left after cutting a line at `\n`
(the `replace(/\r?\n$/, "")` of the source, after the `\n` itself is cut). -/
def stripCR (l : List Char) : List Char :=
  if l.getLast? = some '\r' then l.dropLast else l

/-- `readLine` of `read-smtp-response.ts`: keep appending chunks to the
buffer until it contains a `\n`, then split off the first line.  Returns the
line (without its terminator), the remaining buffer, and the remaining
chunks; fails with `closed` when the chunk list runs out first. -/
def readLine (buffer : List Char) (chunks : Chunks) :
    Except ReadErr (List Char × List Char × Chunks) :=
  let pre := buffer.takeWhile (· ≠ '\n')
  match buffer.dropWhile (· ≠ '\n') with
  | [] =>
    match chunks with
    | [] => .error .closed
    | c :: rest => readLine (buffer ++ c) rest
  | _ :: restBuf => .ok (stripCR pre, restBuf, chunks)

/-- `readLine` strictly decreases the combined weight of buffer and
remaining chunks. -/
theorem readLine_weight {buffer : List Char} {chunks : Chunks}
    {l b' : List Char} {cs' : Chunks}
    (h : readLine buffer chunks = .ok (l, b', cs')) :
    b'.length + chunksWeight cs' < buffer.length + chunksWeight chunks := by
  induction chunks generalizing buffer with
  | nil =>
    rw [readLine] at h
    rcases hd : buffer.dropWhile (· ≠ '\n') with _ | ⟨x, restBuf⟩
    · simp only [hd] at h
      exact absurd h (by simp)
    · simp only [hd] at h
      injection h with h1
      injection h1 with hl h2
      injection h2 with hb hcs
      subst hb; subst hcs
      have hlen : (buffer.takeWhile (· ≠ '\n')).length +
          (buffer.dropWhile (· ≠ '\n')).length = buffer.length := by
        rw [← List.length_append, List.takeWhile_append_dropWhile]
      rw [hd] at hlen
      simp only [List.length_cons] at hlen
      omega
  | cons c rest ih =>
    rw [readLine] at h
    rcases hd : buffer.dropWhile (· ≠ '\n') with _ | ⟨x, restBuf⟩
    · simp only [hd] at h
      have := ih h
      simp only [chunksWeight, List.map_cons, List.sum_cons, List.length_cons,
        List.length_append] at *
      omega
    · simp only [hd] at h
      injection h with h1
      injection h1 with hl h2
      injection h2 with hb hcs
      subst hb; subst hcs
      have hlen : (buffer.takeWhile (· ≠ '\n')).length +
          (buffer.dropWhile (· ≠ '\n')).length = buffer.length := by
        rw [← List.length_append, List.takeWhile_append_dropWhile]
      rw [hd] at hlen
      simp only [List.length_cons] at hlen
      omega

set_option linter.unusedVariables false in
/-- The multi-line loop of `readSmtpResponse`: keep reading lines,
collecting each into the accumulator, until one starts with the 3-character
code followed by a space. -/
def readMulti (codeStr : List Char) (buffer : List Char) (chunks : Chunks)
    (acc : List (List Char)) :
    Except ReadErr (List (List Char) × List Char × Chunks) :=
  match h : readLine buffer chunks with
  | .error e => .error e
  | .ok (line, b', cs') =>
    if (codeStr ++ [' ']).isPrefixOf line then .ok (acc ++ [line], b', cs')
    else readMulti codeStr b' cs' (acc ++ [line])
termination_by buffer.length + chunksWeight chunks
decreasing_by exact readLine_weight h

/-- `readSmtpResponse`, keeping the reader's internal state visible: the
result also carries the leftover line buffer and the remaining chunk list.
The first line's 3-character slice is converted with `Number`; the reply is
malformed when the conversion is not finite or the slice is shorter than
3 characters.  A 4th character `-` starts the multi-line loop. -/
def readSmtpResponseAux (chunks : Chunks) :
    Except ReadErr (RawReply × List Char × Chunks) :=
  match readLine [] chunks with
  | .error e => .error e
  | .ok (first, b1, cs1) =>
    let codeStr := first.take 3
    let code := stringToNumber codeStr
    if jsIsFinite code = false ∨ codeStr.length ≠ 3 then
      .error (.malformed first)
    else if first.get? 3 = some '-' then
      match readMulti codeStr b1 cs1 [first] with
      | .error e => .error e
      | .ok (lines, b2, cs2) => .ok (⟨code.toQ, lines⟩, b2, cs2)
    else .ok (⟨code.toQ, [first]⟩, b1, cs1)

/-- `readSmtpResponse` as callers see it: the local line buffer is dropped
when the operation returns (`let buffer = ""` is re-created per call in the
source), so only the parsed reply and the not-yet-delivered chunks remain. -/
def readSmtpResponse (chunks : Chunks) : Except ReadErr (RawReply × Chunks) :=
  match readSmtpResponseAux chunks with
  | .error e => .error e
  | .ok (reply, _, cs) => .ok (reply, cs)

/-! ## The session layer (`smtp-send-mail.ts` and collaborators)

The orchestrator is modelled one level above the byte stream: the server is
a script — the list of parsed replies that the successive
`readSmtpResponse` calls would produce — and every externally visible
action (opening the socket, each write, the STARTTLS upgrade, closing the
socket) is recorded in an event trace.  Errors are represented structurally
instead of as JavaScript `Error` messages: `assert-smtp-ok.ts` builds its
message from the context label, the numeric code and the joined reply
lines, which are exactly the fields of `SendErr.protocol`. -/

/-- A parsed SMTP reply as the orchestrator consumes it. -/
structure Resp where
  code : ℚ
  lines : List String
deriving DecidableEq

/-- `SmtpSecureTransport` of `get-smtp-secure-transport.ts`:
`"off" | "on" | "starttls"`. -/
inductive SecureTransport where
  | off : SecureTransport
  | on : SecureTransport
  | starttls : SecureTransport
deriving DecidableEq

/-- `getSmtpSecureTransport`: decide the Cloudflare socket TLS mode from
the port and the optional explicit `secure` flag. -/
def getSmtpSecureTransport (port : ℚ) (secure : Option Bool) :
    SecureTransport :=
  if port = 465 then .on
  else if port = 587 then .starttls
  else if secure = some true then .on
  else if secure = some false then .off
  else .off

/-- `SmtpCapabilities.auth` of `parse-smtp-capabilities.ts`. -/
structure AuthCaps where
  plain : Bool
  login : Bool
deriving DecidableEq

/-- `SmtpCapabilities` of `parse-smtp-capabilities.ts`. -/
structure SmtpCapabilities where
  auth : AuthCaps
deriving DecidableEq

/-- Strip a leading `\d{3}[ -]` prefix from a capability line
(the `replace(/^\d{3}[ -]/, "")` of the source). -/
def stripCodeAndSep (l : String) : String :=
  match l.data with
  | a :: b :: c :: d :: rest =>
    if isDigitC a ∧ isDigitC b ∧ isDigitC c ∧ (d = ' ' ∨ d = '-') then
      ⟨rest⟩
    else l
  | _ => l

/-- `parseSmtpCapabilities`: normalise each EHLO line (strip the code
prefix, trim, uppercase), find the first line starting with `"AUTH "`, and
look for the `PLAIN` and `LOGIN` tokens in its whitespace-separated
remainder. -/
def parseSmtpCapabilities (ehlo : Resp) : SmtpCapabilities :=
  let normalized :=
    (ehlo.lines.map (fun l => (stripCodeAndSep l).trim.toUpper)).filter
      (fun l => l.length > 0)
  let authLine := normalized.find? (fun l => l.startsWith "AUTH ")
  let methods : List String :=
    match authLine with
    | some l => (l.drop 5).split (fun c => c.isWhitespace)
    | none => []
  ⟨⟨methods.contains "PLAIN", methods.contains "LOGIN"⟩⟩

/-- The base64 alphabet, for the `btoa` model. -/
def b64Alphabet : List Char :=
  "ABCDEFGHIJKLMNOPQRSTUVWXYZabcdefghijklmnopqrstuvwxyz0123456789+/".data

/-- The base64 digit for a 6-bit value. -/
def b64Char (n : ℕ) : Char := b64Alphabet.getD n 'A'

/-- Standard base64 of a byte list with `=` padding (the encoding performed
by `btoa`). -/
def b64Encode : List ℕ → List Char
  | [] => []
  | [a] => [b64Char (a / 4), b64Char (a % 4 * 16), '=', '=']
  | [a, b] => [b64Char (a / 4), b64Char (a % 4 * 16 + b / 16),
      b64Char (b % 16 * 4), '=']
  | a :: b :: c :: rest =>
    [b64Char (a / 4), b64Char (a % 4 * 16 + b / 16),
     b64Char (b % 16 * 4 + c / 64), b64Char (c % 64)] ++ b64Encode rest

/-- JavaScript `btoa` on a latin1 string: base64 of the code points. -/
def btoa (s : String) : String := ⟨b64Encode (s.data.map Char.toNat)⟩

/-- Credentials for SMTP AUTH. -/
structure AuthCreds where
  user : String
  pass : String
deriving DecidableEq

/-- The mailer configuration consumed by `smtpSendMail` (ports are
JavaScript numbers, modelled in `ℚ`). -/
structure Config where
  host : String
  port : ℚ
  secure : Option Bool
  helo : Option String
  auth : Option AuthCreds
deriving DecidableEq

/-- The mail object consumed by `smtpSendMail` (`from` is a Lean keyword,
hence `fromAddr`; `to` is a reserved token, hence `toAddrs`). -/
structure Mail where
  fromAddr : String
  toAddrs : List String
  subject : String
  text : Option String
  html : Option String
deriving DecidableEq

/-- Externally visible actions of one send operation, in order. -/
inductive Ev where
  | connect (host : String) (port : ℚ) (mode : SecureTransport) : Ev
  | write (data : String) : Ev
  | tlsUpgrade : Ev
  | close : Ev
deriving DecidableEq

/-- Structured errors of one send operation (the source throws `Error`s
whose messages carry the same data). -/
inductive SendErr where
  | validation : SendErr
  | unsupportedPort : SendErr
  | connectionClosed : SendErr
  | protocol (context : String) (code : ℚ) (lines : List String) : SendErr
  | authUnsupported : SendErr
deriving DecidableEq

/-- The orchestrator's running state: the replies not yet consumed and the
trace of actions so far. -/
structure St where
  replies : List Resp
  trace : List Ev
deriving DecidableEq

/-- Outcome of a session fragment: success with a value, or an error —
in either case with the state at that point (so that the trace on the error
path stays observable). -/
inductive Out (α : Type) where
  | ok (a : α) (st : St) : Out α
  | fail (e : SendErr) (st : St) : Out α
deriving DecidableEq

/-- The final state of an outcome. -/
def Out.st {α : Type} : Out α → St
  | .ok _ st => st
  | .fail _ st => st

/-- The event trace of an outcome. -/
def Out.trace {α : Type} (o : Out α) : List Ev := o.st.trace

/-- Forget trace and value: just the error, if any. -/
def Out.toExcept : Out Unit → Except SendErr Unit
  | .ok _ _ => .ok ()
  | .fail e _ => .error e

/-- Error, or the replies left unconsumed on success (used to compose
session fragments). -/
def Out.toRem {α : Type} : Out α → Except SendErr (List Resp)
  | .ok _ st => .ok st.replies
  | .fail e _ => .error e

/-- Append an event to the trace. -/
def emit (e : Ev) (st : St) : St := ⟨st.replies, st.trace ++ [e]⟩

/-- `writeSmtpCommand` of `write-smtp-command.ts`: write the command plus
CRLF. -/
def writeCmd (command : String) (st : St) : St :=
  emit (.write (command ++ "\r\n")) st

/-- One `readSmtpResponse` call at the session level: take the next scripted
reply; an exhausted script is the reader's `ConnectionClosed`. -/
def readResp (st : St) : Out Resp :=
  match st.replies with
  | [] => .fail .connectionClosed ⟨[], st.trace⟩
  | r :: rest => .ok r ⟨rest, st.trace⟩

/-- `assertSmtpOk` of `assert-smtp-ok.ts`: pass the reply through when its
code is expected, otherwise fail with context, code and lines. -/
def assertSmtpOk (response : Resp) (expectedCodes : List ℚ) (context : String)
    (st : St) : Out Unit :=
  if response.code ∈ expectedCodes then .ok () st
  else .fail (.protocol context response.code response.lines) st

/-- One command/response exchange: optionally write a command, read the
reply, check its code. -/
def stage (cmd : Option String) (context : String) (expectedCodes : List ℚ)
    (st : St) : Out Resp :=
  let st1 := match cmd with
    | some c => writeCmd c st
    | none => st
  match readResp st1 with
  | .fail e st2 => .fail e st2
  | .ok r st2 =>
    match assertSmtpOk r expectedCodes context st2 with
    | .fail e st3 => .fail e st3
    | .ok _ st3 => .ok r st3

/-- Sequencing of session fragments, mirroring the `await` chain of the
source: an error short-circuits, success passes the value and the state to
the continuation. -/
def Out.seq {α β : Type} (o : Out α) (k : α → St → Out β) : Out β :=
  match o with
  | .fail e st => .fail e st
  | .ok a st => k a st

/-- `smtpAuth` of `smtp-auth.ts`: AUTH PLAIN when advertised, else
AUTH LOGIN when advertised, else fail without writing anything. -/
def smtpAuth (capabilities : SmtpCapabilities) (auth : AuthCreds) (st : St) :
    Out Unit :=
  if capabilities.auth.plain then
    (stage (some ("AUTH PLAIN " ++
        btoa ("\x00" ++ auth.user ++ "\x00" ++ auth.pass)))
        "AUTH PLAIN" [235] st).seq fun _ st1 =>
    .ok () st1
  else if capabilities.auth.login then
    (stage (some "AUTH LOGIN") "AUTH LOGIN (challenge user)" [334]
        st).seq fun _ st1 =>
    (stage (some (btoa auth.user)) "AUTH LOGIN (challenge pass)" [334]
        st1).seq fun _ st2 =>
    (stage (some (btoa auth.pass)) "AUTH LOGIN" [235] st2).seq fun _ st3 =>
    .ok () st3
  else .fail .authUnsupported st

/-- Is an optional string present and non-empty?  (JavaScript truthiness of
`input.text` / `input.html` in `create-message.ts`.) -/
def truthy : Option String → Bool
  | some s => s ≠ ""
  | none => false

/-- `createMessage` of `create-message.ts`.  The random multipart boundary
uses the injected `uuid` (the source calls `crypto.randomUUID()`; the model
takes the generated value as a parameter). -/
def createMessage (uuid : String) (fromAddr : String) (toAddrs : List String)
    (subject : String) (text html : Option String) : String :=
  let headers := ["From: " ++ fromAddr,
                  "To: " ++ String.intercalate ", " toAddrs,
                  "Subject: " ++ subject,
                  "MIME-Version: 1.0"]
  if truthy html ∧ truthy text then
    let boundary := "cf-mailer-" ++ uuid
    let headers := headers ++
      ["Content-Type: multipart/alternative; boundary=\"" ++ boundary ++ "\""]
    let parts := ["--" ++ boundary,
                  "Content-Type: text/plain; charset=\"utf-8\"",
                  "",
                  text.getD "",
                  "--" ++ boundary,
                  "Content-Type: text/html; charset=\"utf-8\"",
                  "",
                  html.getD "",
                  "--" ++ boundary ++ "--"]
    String.intercalate "\r\n" headers ++ "\r\n\r\n" ++
      String.intercalate "\r\n" parts
  else if truthy html then
    String.intercalate "\r\n"
      (headers ++ ["Content-Type: text/html; charset=\"utf-8\""]) ++
      "\r\n\r\n" ++ html.getD ""
  else
    String.intercalate "\r\n"
      (headers ++ ["Content-Type: text/plain; charset=\"utf-8\""]) ++
      "\r\n\r\n" ++ text.getD ""

/-- The `RCPT TO` loop of `smtpSendMail`: one command and one 250/251 check
per recipient, in order. -/
def rcptLoop (toAddrs : List String) (st : St) : Out Unit :=
  match toAddrs with
  | [] => .ok () st
  | recipient :: rest =>
    (stage (some ("RCPT TO:<" ++ recipient ++ ">")) "RCPT TO" [250, 251]
        st).seq fun _ st1 =>
    rcptLoop rest st1

/-- The tail of `smtpSendMail` from `MAIL FROM` on, shared by the plain and
the STARTTLS paths: MAIL FROM, the RCPT TO loop, DATA, the dot-stuffed body
with its terminator, the DATA-end check, QUIT (reply read, code ignored)
and the socket close. -/
def afterAuth (mail : Mail) (uuid : String) (st1 : St) :
    Out Unit :=
  (stage (some ("MAIL FROM:<" ++ mail.fromAddr ++ ">")) "MAIL FROM"
      [250] st1).seq fun _ st2 =>
  (rcptLoop mail.toAddrs st2).seq fun _ st3 =>
  (stage (some "DATA") "DATA" [354] st3).seq fun _ st4 =>
  let body := createMessage uuid mail.fromAddr mail.toAddrs mail.subject
    mail.text mail.html
  (readResp (emit (.write (dotStuffStr body ++ "\r\n" ++ "." ++ "\r\n"))
      st4)).seq fun queued st6 =>
  (assertSmtpOk queued [250] "DATA end" st6).seq fun _ st7 =>
  (readResp (writeCmd "QUIT" st7)).seq fun _ st8 =>
  .ok () (emit .close st8)

/-- The tail of `smtpSendMail` shared by the plain and the STARTTLS paths:
optional AUTH driven by the governing capability set, then `afterAuth`. -/
def afterEhlo (cfg : Config) (mail : Mail) (uuid : String)
    (capabilities : SmtpCapabilities) (st : St) : Out Unit :=
  let authStep : Out Unit :=
    match cfg.auth with
    | some a => smtpAuth capabilities a st
    | none => .ok () st
  authStep.seq fun _ st1 => afterAuth mail uuid st1

/-- `smtpSendMail` of `smtp-send-mail.ts`: reject port 25, open the socket
in the selected transport mode, run greeting and EHLO, optionally upgrade
via STARTTLS and re-run EHLO, then hand over to `afterEhlo` with the
capability set that governs AUTH (the post-upgrade one on the STARTTLS
path). -/
def smtpSendMail (cfg : Config) (mail : Mail) (uuid : String)
    (replies : List Resp) : Out Unit :=
  if cfg.port = 25 then .fail .unsupportedPort ⟨replies, []⟩
  else
    let secureTransport := getSmtpSecureTransport cfg.port cfg.secure
    let st0 : St := ⟨replies, [.connect cfg.host cfg.port secureTransport]⟩
    (stage none "Greeting" [220] st0).seq fun _ st1 =>
    let heloName := cfg.helo.getD "localhost"
    (stage (some ("EHLO " ++ heloName)) "EHLO" [250] st1).seq fun ehlo st2 =>
    if secureTransport = .starttls then
      (stage (some "STARTTLS") "STARTTLS" [220] st2).seq fun _ st3 =>
      (stage (some ("EHLO " ++ heloName)) "EHLO (TLS)" [250]
          (emit .tlsUpgrade st3)).seq fun tlsEhlo st5 =>
      afterEhlo cfg mail uuid (parseSmtpCapabilities tlsEhlo) st5
    else
      afterEhlo cfg mail uuid (parseSmtpCapabilities ehlo) st2

/-! ## The specification's stage table

Modelled from the spec: §4.8 gives the session as a chain of stages, each
with an expected reply-code set — greeting 220, EHLO 250, on the STARTTLS
path STARTTLS 220 and a second EHLO 250, the AUTH exchange (PLAIN: one step
expecting 235; LOGIN: 334, 334, 235; neither advertised: abort with
`AuthUnsupported` before writing), MAIL FROM 250, one RCPT TO per recipient
in order each expecting 250 or 251, DATA 354, DATA-end 250 — followed by
QUIT, whose reply is read but "not required to succeed".  A stage whose
reply code is outside its expected set aborts the whole session with a
`ProtocolError` carrying the stage name, the received code and all reply
lines; there is no partial success. -/

/-- One entry of the spec's stage table: an expected exchange, or the
AUTH-unsupported abort point. -/
inductive SpecItem where
  | expect (context : String) (codes : List ℚ) : SpecItem
  | abortAuth : SpecItem
deriving DecidableEq

/-- Modelled from the spec: the AUTH stages for a given credential option
and capability set (§4.5). -/
def authSpecs (auth : Option AuthCreds) (caps : SmtpCapabilities) :
    List SpecItem :=
  match auth with
  | none => []
  | some _ =>
    if caps.auth.plain then [.expect "AUTH PLAIN" [235]]
    else if caps.auth.login then
      [.expect "AUTH LOGIN (challenge user)" [334],
       .expect "AUTH LOGIN (challenge pass)" [334],
       .expect "AUTH LOGIN" [235]]
    else [.abortAuth]

/-- Modelled from the spec: the stages from AUTH onwards (§4.8). -/
def tailSpecs (cfg : Config) (mail : Mail) (caps : SmtpCapabilities) :
    List SpecItem :=
  authSpecs cfg.auth caps ++ [.expect "MAIL FROM" [250]] ++
    mail.toAddrs.map (fun _ => .expect "RCPT TO" [250, 251]) ++
    [.expect "DATA" [354], .expect "DATA end" [250]]

/-- Modelled from the spec: the complete stage table of one session.  On the
STARTTLS path the capability set governing AUTH is parsed from the 4th
scripted reply (the post-upgrade EHLO), otherwise from the 2nd (the only
EHLO); when the session fails before that reply exists the AUTH entries are
never reached, so the default is irrelevant. -/
def stageSpecs (cfg : Config) (mail : Mail) (replies : List Resp) :
    List SpecItem :=
  if getSmtpSecureTransport cfg.port cfg.secure = .starttls then
    [.expect "Greeting" [220], .expect "EHLO" [250],
     .expect "STARTTLS" [220], .expect "EHLO (TLS)" [250]] ++
      tailSpecs cfg mail (parseSmtpCapabilities (replies.getD 3 ⟨0, []⟩))
  else
    [.expect "Greeting" [220], .expect "EHLO" [250]] ++
      tailSpecs cfg mail (parseSmtpCapabilities (replies.getD 1 ⟨0, []⟩))

/-- Modelled from the spec: run the stage table against the scripted
replies, consuming one reply per expected exchange; the first reply whose
code is outside the stage's expected set aborts with the `ProtocolError`
payload, running out of replies aborts with `ConnectionClosed`, and the
`abortAuth` entry aborts with `AuthUnsupported` without consuming a reply.
Returns the replies left for the final QUIT read. -/
def specRunP : List SpecItem → List Resp → Except SendErr (List Resp)
  | [], rs => .ok rs
  | .abortAuth :: _, _ => .error .authUnsupported
  | .expect _ _ :: _, [] => .error .connectionClosed
  | .expect context codes :: specs, r :: rs =>
    if r.code ∈ codes then specRunP specs rs
    else .error (.protocol context r.code r.lines)

/-- Modelled from the spec: a full session succeeds exactly when every
stage's reply code is in its expected set and one further reply remains to
be read for QUIT (its code unconstrained); otherwise the first deviation's
error surfaces. -/
def specRun (specs : List SpecItem) (rs : List Resp) : Except SendErr Unit :=
  match specRunP specs rs with
  | .error e => .error e
  | .ok [] => .error .connectionClosed
  | .ok (_ :: _) => .ok ()

/-- Running an appended stage table splits into running the two parts in
sequence. -/
theorem specRunP_append (xs ys : List SpecItem) (rs : List Resp) :
    specRunP (xs ++ ys) rs =
      match specRunP xs rs with
      | .error e => .error e
      | .ok rs' => specRunP ys rs' := by
  induction xs generalizing rs with
  | nil => simp [specRunP]
  | cons x xs ih =>
    cases x with
    | abortAuth => simp [specRunP]
    | expect context codes =>
      cases rs with
      | nil => simp [specRunP]
      | cons r rs =>
        by_cases h : r.code ∈ codes
        · simpa [specRunP, h] using ih rs
        · simp [specRunP, h]

/-- `specRun` on an appended table: an error in the first part surfaces,
otherwise the rest runs on the remaining replies. -/
theorem specRun_append (xs ys : List SpecItem) (rs : List Resp) :
    specRun (xs ++ ys) rs =
      match specRunP xs rs with
      | .error e => .error e
      | .ok rs' => specRun ys rs' := by
  rw [specRun, specRunP_append]
  cases specRunP xs rs with
  | error e => rfl
  | ok rs' => rfl

/-- Sequencing a success: the continuation runs on the resulting state. -/
theorem Out.seq_ok {α β : Type} (a : α) (st : St) (k : α → St → Out β) :
    (Out.ok a st).seq k = k a st := rfl

/-- Sequencing a failure: the error short-circuits. -/
theorem Out.seq_fail {α β : Type} (e : SendErr) (st : St)
    (k : α → St → Out β) : (Out.fail e st).seq k = .fail e st := rfl

/-- One `stage` exchange behaves like a one-entry stage table: it consumes
one scripted reply and succeeds exactly when the reply code is expected. -/
theorem stage_toRem (cmd : Option String) (ctx : String) (codes : List ℚ)
    (st : St) : (stage cmd ctx codes st).toRem =
      specRunP [.expect ctx codes] st.replies := by
  rcases st with ⟨rs, tr⟩
  rcases rs with _ | ⟨r, rs⟩
  · cases cmd <;>
      simp [stage, readResp, writeCmd, emit, Out.toRem, specRunP]
  · cases cmd
    all_goals
      simp only [stage, readResp, writeCmd, emit, assertSmtpOk, specRunP]
      split_ifs with h <;> simp [Out.toRem, specRunP]

/-- Composition for `toRem`: if a fragment matches a stage-table prefix and
its continuation matches the rest, the sequence matches the appended
table. -/
theorem Out.seq_toRem {α : Type} {o : Out α} {k : α → St → Out Unit}
    {specs1 rest : List SpecItem} {rs : List Resp}
    (h1 : o.toRem = specRunP specs1 rs)
    (hk : ∀ a st', o = .ok a st' →
      (k a st').toRem = specRunP rest st'.replies) :
    (o.seq k).toRem = specRunP (specs1 ++ rest) rs := by
  rw [specRunP_append, ← h1]
  cases o with
  | fail e st => simp [Out.seq, Out.toRem]
  | ok a st =>
    simpa [Out.seq, Out.toRem] using hk a st rfl

/-- Composition for `toExcept`: like `Out.seq_toRem`, ending in a full
session run. -/
theorem Out.seq_spec {α : Type} {o : Out α} {k : α → St → Out Unit}
    {specs1 rest : List SpecItem} {rs : List Resp}
    (h1 : o.toRem = specRunP specs1 rs)
    (hk : ∀ a st', o = .ok a st' →
      (k a st').toExcept = specRun rest st'.replies) :
    (o.seq k).toExcept = specRun (specs1 ++ rest) rs := by
  rw [specRun_append, ← h1]
  cases o with
  | fail e st => simp [Out.seq, Out.toExcept, Out.toRem]
  | ok a st =>
    simpa [Out.seq, Out.toExcept, Out.toRem] using hk a st rfl

/-- The RCPT TO loop behaves like its stage-table fragment: one 250/251
exchange per recipient, in order. -/
theorem rcptLoop_toRem (toAddrs : List String) : ∀ st : St,
    (rcptLoop toAddrs st).toRem =
      specRunP (toAddrs.map fun _ => .expect "RCPT TO" [250, 251])
        st.replies := by
  induction toAddrs with
  | nil => intro st; simp [rcptLoop, Out.toRem, specRunP]
  | cons a rest ih =>
    intro st
    simp only [rcptLoop, List.map_cons]
    exact Out.seq_toRem (stage_toRem _ _ _ st) (fun _ st' _ => ih st')

/-- The AUTH negotiation behaves like its stage-table fragment: PLAIN is a
single 235 exchange, LOGIN is 334/334/235, and a server advertising neither
aborts with `AuthUnsupported`. -/
theorem smtpAuth_toRem (caps : SmtpCapabilities) (a : AuthCreds) (st : St) :
    (smtpAuth caps a st).toRem =
      specRunP (authSpecs (some a) caps) st.replies := by
  by_cases hp : caps.auth.plain = true
  · simp only [smtpAuth, authSpecs, if_pos hp]
    exact Out.seq_toRem (stage_toRem _ _ _ st)
      (fun _ st' _ => by simp [Out.toRem, specRunP])
  · by_cases hl : caps.auth.login = true
    · simp only [smtpAuth, authSpecs, if_neg hp, if_pos hl]
      refine Out.seq_toRem (stage_toRem _ _ _ st) (fun _ st1 _ => ?_)
      refine Out.seq_toRem (stage_toRem _ _ _ st1) (fun _ st2 _ => ?_)
      refine Out.seq_toRem (stage_toRem _ _ _ st2) (fun _ st3 _ => ?_)
      simp [Out.toRem, specRunP]
    · simp [smtpAuth, authSpecs, hp, hl, Out.toRem, specRunP]

/-- The session tail from MAIL FROM on behaves like its stage-table
fragment, with the QUIT read and the close at the end. -/
theorem afterAuth_toExcept (mail : Mail) (uuid : String) : ∀ st1 : St,
    (afterAuth mail uuid st1).toExcept =
      specRun (.expect "MAIL FROM" [250] ::
        (mail.toAddrs.map (fun _ => SpecItem.expect "RCPT TO" [250, 251]) ++
          [.expect "DATA" [354], .expect "DATA end" [250]]))
        st1.replies := by
  intro st1
  simp only [afterAuth]
  refine Out.seq_spec (stage_toRem _ _ _ st1) (fun _ st2 _ => ?_)
  refine Out.seq_spec (rcptLoop_toRem mail.toAddrs st2) (fun _ st3 _ => ?_)
  refine Out.seq_spec (stage_toRem _ _ _ st3) (fun _ st4 _ => ?_)
  rcases st4 with ⟨rs4, tr4⟩
  rcases rs4 with _ | ⟨rq, rs4⟩
  · simp [readResp, emit, Out.seq, Out.toExcept, specRun, specRunP]
  · simp only [readResp, emit, Out.seq, assertSmtpOk, specRun, specRunP]
    split_ifs with h
    · rcases rs4 with _ | ⟨rq2, rs5⟩ <;>
        simp [readResp, writeCmd, emit, Out.seq, Out.toExcept, specRun,
          specRunP]
    · simp [Out.toExcept]

/-- The shared session tail (optional AUTH, then the mail transaction)
behaves like the stage-table tail for the governing capability set. -/
theorem afterEhlo_toExcept (cfg : Config) (mail : Mail) (uuid : String)
    (caps : SmtpCapabilities) : ∀ st : St,
    (afterEhlo cfg mail uuid caps st).toExcept =
      specRun (tailSpecs cfg mail caps) st.replies := by
  intro st
  have htail : tailSpecs cfg mail caps = authSpecs cfg.auth caps ++
      (.expect "MAIL FROM" [250] ::
        (mail.toAddrs.map (fun _ => SpecItem.expect "RCPT TO" [250, 251]) ++
          [.expect "DATA" [354], .expect "DATA end" [250]])) := by
    simp [tailSpecs]
  rw [htail]
  simp only [afterEhlo]
  refine Out.seq_spec ?_ (fun _ st1 _ => afterAuth_toExcept mail uuid st1)
  cases hauth : cfg.auth with
  | none => simp [authSpecs, Out.toRem, specRunP]
  | some a => exact smtpAuth_toRem caps a st

/-- A `stage` on a non-empty script whose head is accepted: the reply is
returned and one reply is consumed. -/
theorem stage_ok_shape {r : Resp} {codes : List ℚ} (cmd : Option String)
    (ctx : String) (rs : List Resp) (tr : List Ev) (h : r.code ∈ codes) :
    ∃ tr', stage cmd ctx codes ⟨r :: rs, tr⟩ = .ok r ⟨rs, tr'⟩ := by
  cases cmd with
  | none =>
    exact ⟨tr, by simp [stage, readResp, assertSmtpOk, if_pos h]⟩
  | some c =>
    exact ⟨tr ++ [.write (c ++ "\r\n")],
      by simp [stage, readResp, writeCmd, emit, assertSmtpOk, if_pos h]⟩

/-- A `stage` on a non-empty script whose head is rejected: the protocol
error carries the stage name, the code and the lines. -/
theorem stage_fail_shape {r : Resp} {codes : List ℚ} (cmd : Option String)
    (ctx : String) (rs : List Resp) (tr : List Ev) (h : r.code ∉ codes) :
    ∃ tr', stage cmd ctx codes ⟨r :: rs, tr⟩ =
      .fail (.protocol ctx r.code r.lines) ⟨rs, tr'⟩ := by
  cases cmd with
  | none =>
    exact ⟨tr, by simp [stage, readResp, assertSmtpOk, if_neg h]⟩
  | some c =>
    exact ⟨tr ++ [.write (c ++ "\r\n")],
      by simp [stage, readResp, writeCmd, emit, assertSmtpOk, if_neg h]⟩

/-- A `stage` on an exhausted script fails with `ConnectionClosed`. -/
theorem stage_nil_shape (cmd : Option String) (ctx : String)
    (codes : List ℚ) (tr : List Ev) :
    ∃ tr', stage cmd ctx codes ⟨[], tr⟩ =
      .fail .connectionClosed ⟨[], tr'⟩ := by
  cases cmd with
  | none => exact ⟨tr, by simp [stage, readResp]⟩
  | some c =>
    exact ⟨tr ++ [.write (c ++ "\r\n")],
      by simp [stage, readResp, writeCmd, emit]⟩

/-- Stepping the stage table: an accepted head. -/
theorem specRun_cons_mem {r : Resp} {codes : List ℚ} (ctx : String)
    (specs : List SpecItem) (rs : List Resp) (h : r.code ∈ codes) :
    specRun (.expect ctx codes :: specs) (r :: rs) = specRun specs rs := by
  simp only [specRun, specRunP, if_pos h]

/-- Stepping the stage table: a rejected head surfaces the protocol
error. -/
theorem specRun_cons_not {r : Resp} {codes : List ℚ} (ctx : String)
    (specs : List SpecItem) (rs : List Resp) (h : r.code ∉ codes) :
    specRun (.expect ctx codes :: specs) (r :: rs) =
      .error (.protocol ctx r.code r.lines) := by
  simp only [specRun, specRunP, if_neg h]

/-- Stepping the stage table: an exhausted script. -/
theorem specRun_cons_nil (ctx : String) (codes : List ℚ)
    (specs : List SpecItem) :
    specRun (.expect ctx codes :: specs) [] = .error .connectionClosed := by
  simp only [specRun, specRunP]

/-- C2: for every session — any transport mode, any credential option, any
recipient list, any scripted server — the orchestrator's result equals the
run of the spec's stage table: each stage aborts with the `ProtocolError`
payload (stage name, received code, all reply lines) exactly when its reply
code is outside the stage's expected set (greeting 220, EHLO 250,
STARTTLS 220, post-upgrade EHLO 250, AUTH 235 / 334-334-235, MAIL FROM 250,
each RCPT TO in order 250 or 251, DATA 354, DATA-end 250), the reply to
QUIT is read but accepted with any code, and no partial-success result is
ever returned. -/
theorem c2_session_equals_spec_table (cfg : Config) (mail : Mail)
    (uuid : String) (replies : List Resp) (h25 : cfg.port ≠ 25) :
    (smtpSendMail cfg mail uuid replies).toExcept =
      specRun (stageSpecs cfg mail replies) replies := by
  simp only [smtpSendMail, if_neg h25]
  by_cases hm : getSmtpSecureTransport cfg.port cfg.secure = .starttls
  · simp only [stageSpecs, if_pos hm, hm, if_true, List.cons_append,
      List.nil_append]
    rcases replies with _ | ⟨r0, rs⟩
    · obtain ⟨tr', hst⟩ := stage_nil_shape none "Greeting" [220] _
      rw [hst, Out.seq_fail, specRun_cons_nil]
      rfl
    by_cases h0 : r0.code ∈ ([220] : List ℚ)
    · obtain ⟨tr1, hst⟩ := stage_ok_shape none "Greeting" rs _ h0
      rw [hst, Out.seq_ok, specRun_cons_mem _ _ _ h0]
      rcases rs with _ | ⟨r1, rs⟩
      · obtain ⟨tr', hst2⟩ := stage_nil_shape _ "EHLO" [250] _
        rw [hst2, Out.seq_fail, specRun_cons_nil]
        rfl
      by_cases h1 : r1.code ∈ ([250] : List ℚ)
      · obtain ⟨tr2, hst2⟩ := stage_ok_shape _ "EHLO" rs _ h1
        rw [hst2, Out.seq_ok, specRun_cons_mem _ _ _ h1]
        rcases rs with _ | ⟨r2, rs⟩
        · obtain ⟨tr', hst3⟩ := stage_nil_shape _ "STARTTLS" [220] _
          rw [hst3, Out.seq_fail, specRun_cons_nil]
          rfl
        by_cases h2 : r2.code ∈ ([220] : List ℚ)
        · obtain ⟨tr3, hst3⟩ := stage_ok_shape _ "STARTTLS" rs _ h2
          rw [hst3, Out.seq_ok, specRun_cons_mem _ _ _ h2]
          simp only [emit]
          rcases rs with _ | ⟨r3, rs⟩
          · obtain ⟨tr', hst4⟩ := stage_nil_shape _ "EHLO (TLS)" [250] _
            rw [hst4, Out.seq_fail, specRun_cons_nil]
            rfl
          by_cases h3 : r3.code ∈ ([250] : List ℚ)
          · obtain ⟨tr4, hst4⟩ := stage_ok_shape _ "EHLO (TLS)" rs _ h3
            rw [hst4, Out.seq_ok, specRun_cons_mem _ _ _ h3]
            simpa using afterEhlo_toExcept cfg mail uuid
              (parseSmtpCapabilities r3) ⟨rs, tr4⟩
          · obtain ⟨tr', hst4⟩ := stage_fail_shape _ "EHLO (TLS)" rs _ h3
            rw [hst4, Out.seq_fail, specRun_cons_not _ _ _ h3]
            rfl
        · obtain ⟨tr', hst3⟩ := stage_fail_shape _ "STARTTLS" rs _ h2
          rw [hst3, Out.seq_fail, specRun_cons_not _ _ _ h2]
          rfl
      · obtain ⟨tr', hst2⟩ := stage_fail_shape _ "EHLO" rs _ h1
        rw [hst2, Out.seq_fail, specRun_cons_not _ _ _ h1]
        rfl
    · obtain ⟨tr', hst⟩ := stage_fail_shape none "Greeting" rs _ h0
      rw [hst, Out.seq_fail, specRun_cons_not _ _ _ h0]
      rfl
  · simp only [stageSpecs, if_neg hm, List.cons_append, List.nil_append]
    rcases replies with _ | ⟨r0, rs⟩
    · obtain ⟨tr', hst⟩ := stage_nil_shape none "Greeting" [220] _
      rw [hst, Out.seq_fail, specRun_cons_nil]
      rfl
    by_cases h0 : r0.code ∈ ([220] : List ℚ)
    · obtain ⟨tr1, hst⟩ := stage_ok_shape none "Greeting" rs _ h0
      rw [hst, Out.seq_ok, specRun_cons_mem _ _ _ h0]
      rcases rs with _ | ⟨r1, rs⟩
      · obtain ⟨tr', hst2⟩ := stage_nil_shape _ "EHLO" [250] _
        rw [hst2, Out.seq_fail, specRun_cons_nil]
        rfl
      by_cases h1 : r1.code ∈ ([250] : List ℚ)
      · obtain ⟨tr2, hst2⟩ := stage_ok_shape _ "EHLO" rs _ h1
        rw [hst2, Out.seq_ok, specRun_cons_mem _ _ _ h1]
        simpa using afterEhlo_toExcept cfg mail uuid
          (parseSmtpCapabilities r1) ⟨rs, tr2⟩
      · obtain ⟨tr', hst2⟩ := stage_fail_shape _ "EHLO" rs _ h1
        rw [hst2, Out.seq_fail, specRun_cons_not _ _ _ h1]
        rfl
    · obtain ⟨tr', hst⟩ := stage_fail_shape none "Greeting" rs _ h0
      rw [hst, Out.seq_fail, specRun_cons_not _ _ _ h0]
      rfl

/-- C7: transport-mode selection is a pure function of (port, explicit
secure): 465 always gives implicit TLS, 587 always gives STARTTLS, any
other port follows the explicit flag with plain as the default. -/
theorem c7_transport_mode_policy :
    (∀ s : Option Bool, getSmtpSecureTransport 465 s = .on) ∧
    (∀ s : Option Bool, getSmtpSecureTransport 587 s = .starttls) ∧
    (∀ p : ℚ, p ≠ 465 → p ≠ 587 →
      getSmtpSecureTransport p (some true) = .on ∧
      getSmtpSecureTransport p (some false) = .off ∧
      getSmtpSecureTransport p none = .off) := by
  refine ⟨fun s => by simp [getSmtpSecureTransport],
    fun s => by norm_num [getSmtpSecureTransport],
    fun p h1 h2 => ?_⟩
  simp [getSmtpSecureTransport, h1, h2]

/-- Witness for C7 at the spec's own example port 2525. -/
theorem c7_transport_mode_policy_witness :
    getSmtpSecureTransport 2525 (some true) = .on ∧
    getSmtpSecureTransport 2525 (some false) = .off ∧
    getSmtpSecureTransport 2525 none = .off :=
  c7_transport_mode_policy.2.2 2525 (by norm_num) (by norm_num)

/-- C8: with port 25, `smtpSendMail` fails with the unsupported-port error
for every combination of the other config fields and the mail, before any
event — in particular before the connect — is emitted (the trace is
empty). -/
theorem c8_port25_rejected_before_connect (cfg : Config) (mail : Mail)
    (uuid : String) (replies : List Resp) (h : cfg.port = 25) :
    smtpSendMail cfg mail uuid replies =
      .fail .unsupportedPort ⟨replies, []⟩ := by
  simp [smtpSendMail, h]

/-- Witness for C8 at a concrete port-25 configuration. -/
theorem c8_port25_rejected_before_connect_witness :
    smtpSendMail ⟨"smtp.example.com", 25, none, none, none⟩
        ⟨"a@x.com", ["b@y.com"], "Hi", some "T", none⟩ "uuid" [] =
      .fail .unsupportedPort ⟨[], []⟩ :=
  c8_port25_rejected_before_connect _ _ _ _ rfl

/-- C1 evaluated on a failing input: a plain-mode session whose server
rejects `RCPT TO` with 550 surfaces the protocol error, but the trace shows
the socket was never closed (there is no `try`/`finally` in
`smtpSendMail`); on the same configuration a successful session does close
the socket.  The spec requires the handle to be closed on every exit
path. -/
theorem c1_socket_left_open_on_rcpt_failure :
    smtpSendMail ⟨"smtp.example.com", 2525, none, none, none⟩
        ⟨"a@x.com", ["b@y.com"], "Hi", some "T", none⟩ "uuid"
        [⟨220, ["220 ready"]⟩, ⟨250, ["250 ok"]⟩, ⟨250, ["250 ok"]⟩,
         ⟨550, ["550 no such user"]⟩] =
      .fail (.protocol "RCPT TO" 550 ["550 no such user"])
        ⟨[], [.connect "smtp.example.com" 2525 .off,
              .write ("EHLO localhost" ++ "\r\n"),
              .write ("MAIL FROM:<a@x.com>" ++ "\r\n"),
              .write ("RCPT TO:<b@y.com>" ++ "\r\n")]⟩ ∧
    Ev.close ∉ (smtpSendMail ⟨"smtp.example.com", 2525, none, none, none⟩
        ⟨"a@x.com", ["b@y.com"], "Hi", some "T", none⟩ "uuid"
        [⟨220, ["220 ready"]⟩, ⟨250, ["250 ok"]⟩, ⟨250, ["250 ok"]⟩,
         ⟨550, ["550 no such user"]⟩]).trace ∧
    Ev.close ∈ (smtpSendMail ⟨"smtp.example.com", 2525, none, none, none⟩
        ⟨"a@x.com", ["b@y.com"], "Hi", some "T", none⟩ "uuid"
        [⟨220, ["220 ready"]⟩, ⟨250, ["250 ok"]⟩, ⟨250, ["250 ok"]⟩,
         ⟨250, ["250 ok"]⟩, ⟨354, ["354 go"]⟩, ⟨250, ["250 queued"]⟩,
         ⟨221, ["221 bye"]⟩]).trace := by
  refine ⟨by decide, by decide, by decide⟩

/-- C6: the AUTH negotiator performs exactly one mechanism.  With PLAIN
advertised the only command written is the single `AUTH PLAIN` line
(whatever the server replies); with PLAIN absent and LOGIN advertised the
commands written are a prefix of the LOGIN exchange (`AUTH LOGIN`, base64
user, base64 password) and nothing else; with neither advertised it fails
with `AuthUnsupported` leaving state and trace untouched. -/
theorem c6_auth_single_mechanism (caps : SmtpCapabilities) (a : AuthCreds)
    (st : St) :
    (caps.auth.plain = true →
      (smtpAuth caps a st).trace = st.trace ++
        [.write ("AUTH PLAIN " ++
          btoa ("\x00" ++ a.user ++ "\x00" ++ a.pass) ++ "\r\n")]) ∧
    (caps.auth.plain = false → caps.auth.login = true →
      ∃ l, (smtpAuth caps a st).trace = st.trace ++ l ∧
        (l = [.write ("AUTH LOGIN" ++ "\r\n")] ∨
         l = [.write ("AUTH LOGIN" ++ "\r\n"),
              .write (btoa a.user ++ "\r\n")] ∨
         l = [.write ("AUTH LOGIN" ++ "\r\n"),
              .write (btoa a.user ++ "\r\n"),
              .write (btoa a.pass ++ "\r\n")])) ∧
    (caps.auth.plain = false → caps.auth.login = false →
      smtpAuth caps a st = .fail .authUnsupported st) := by
  refine ⟨?_, ?_, ?_⟩
  · intro hp
    rcases st with ⟨rs, tr⟩
    rcases rs with _ | ⟨r, rs⟩
    · simp [smtpAuth, hp, stage, readResp, writeCmd, emit, Out.seq,
        Out.trace, Out.st]
    · simp only [smtpAuth, if_pos hp, stage, readResp, writeCmd, emit,
        assertSmtpOk]
      split_ifs with h <;> simp [Out.seq, Out.trace, Out.st]
  · intro hp hl
    rcases st with ⟨rs, tr⟩
    rcases rs with _ | ⟨r0, rs⟩
    · refine ⟨[.write ("AUTH LOGIN" ++ "\r\n")], ?_, Or.inl rfl⟩
      simp [smtpAuth, hp, hl, stage, readResp, writeCmd, emit, Out.seq,
        Out.trace, Out.st]
    · by_cases h0 : r0.code = 334
      · rcases rs with _ | ⟨r1, rs⟩
        · refine ⟨[.write ("AUTH LOGIN" ++ "\r\n"),
            .write (btoa a.user ++ "\r\n")], ?_, Or.inr (Or.inl rfl)⟩
          simp [smtpAuth, hp, hl, stage, readResp, writeCmd, emit,
            assertSmtpOk, Out.seq, Out.trace, Out.st, h0]
        · by_cases h1 : r1.code = 334
          · refine ⟨[.write ("AUTH LOGIN" ++ "\r\n"),
              .write (btoa a.user ++ "\r\n"),
              .write (btoa a.pass ++ "\r\n")], ?_, Or.inr (Or.inr rfl)⟩
            rcases rs with _ | ⟨r2, rs⟩
            · simp [smtpAuth, hp, hl, stage, readResp, writeCmd, emit,
                assertSmtpOk, Out.seq, Out.trace, Out.st, h0, h1]
            · by_cases h2 : r2.code = 235 <;>
                simp [smtpAuth, hp, hl, stage, readResp, writeCmd, emit,
                  assertSmtpOk, Out.seq, Out.trace, Out.st, h0, h1, h2]
          · refine ⟨[.write ("AUTH LOGIN" ++ "\r\n"),
              .write (btoa a.user ++ "\r\n")], ?_, Or.inr (Or.inl rfl)⟩
            simp [smtpAuth, hp, hl, stage, readResp, writeCmd, emit,
              assertSmtpOk, Out.seq, Out.trace, Out.st, h0, h1]
      · refine ⟨[.write ("AUTH LOGIN" ++ "\r\n")], ?_, Or.inl rfl⟩
        simp [smtpAuth, hp, hl, stage, readResp, writeCmd, emit,
          assertSmtpOk, Out.seq, Out.trace, Out.st, h0]
  · intro hp hl
    simp [smtpAuth, hp, hl]

/-- Witness for C6: a server advertising neither mechanism is refused
without any command being written, and a PLAIN-capable server gets exactly
the one `AUTH PLAIN` command. -/
theorem c6_auth_single_mechanism_witness :
    smtpAuth ⟨⟨false, false⟩⟩ ⟨"u", "p"⟩ ⟨[], []⟩ =
        .fail .authUnsupported ⟨[], []⟩ ∧
    (smtpAuth ⟨⟨true, true⟩⟩ ⟨"u", "p"⟩ ⟨[⟨235, ["235 ok"]⟩], []⟩).trace =
        [.write ("AUTH PLAIN " ++ btoa ("\x00" ++ "u" ++ "\x00" ++ "p") ++
          "\r\n")] :=
  ⟨(c6_auth_single_mechanism ⟨⟨false, false⟩⟩ ⟨"u", "p"⟩ ⟨[], []⟩).2.2 rfl rfl,
   by simpa using
     (c6_auth_single_mechanism ⟨⟨true, true⟩⟩ ⟨"u", "p"⟩
       ⟨[⟨235, ["235 ok"]⟩], []⟩).1 rfl⟩

/-- Witness for C2 at a concrete configuration and script. -/
theorem c2_session_equals_spec_table_witness :
    ((⟨"h", 2525, none, none, none⟩ : Config).port ≠ 25) ∧
    (smtpSendMail ⟨"h", 2525, none, none, none⟩
        ⟨"a@x.com", ["b@y.com"], "Hi", some "T", none⟩ "uuid"
        [⟨220, ["220 ready"]⟩, ⟨550, ["550 nope"]⟩]).toExcept =
      specRun (stageSpecs ⟨"h", 2525, none, none, none⟩
        ⟨"a@x.com", ["b@y.com"], "Hi", some "T", none⟩
        [⟨220, ["220 ready"]⟩, ⟨550, ["550 nope"]⟩])
        [⟨220, ["220 ready"]⟩, ⟨550, ["550 nope"]⟩] :=
  ⟨by norm_num,
   c2_session_equals_spec_table _ _ _ _ (by norm_num)⟩

/-- A piece with no CR LF cannot start with one. -/
theorem noCRLF_guard {c : Char} {rest : List Char}
    (h : hasCRLF (c :: rest) = false) :
    ∀ rest', c = '\r' → rest = '\n' :: rest' → False := by
  intro r' hc hr
  subst hc
  subst hr
  rw [hasCRLF.eq_1] at h
  exact absurd h (by simp)

/-- `hasCRLF` is monotone along the tail. -/
theorem hasCRLF_cons_false {c : Char} {rest : List Char}
    (h : hasCRLF (c :: rest) = false) : hasCRLF rest = false := by
  rw [hasCRLF.eq_2 c rest (noCRLF_guard h)] at h
  exact h

/-- Splitting a CRLF-free piece yields just that piece. -/
theorem splitCRLF_of_not_hasCRLF {l : List Char} (h : hasCRLF l = false) :
    splitCRLF l = [l] := by
  induction l with
  | nil => rfl
  | cons c rest ih =>
    rw [splitCRLF.eq_3 c rest (noCRLF_guard h), ih (hasCRLF_cons_false h)]

/-- Splitting a CRLF-free piece followed by a CRLF separator peels off that
piece (the junction cannot create a spurious separator). -/
theorem splitCRLF_append {l : List Char} (s : List Char)
    (h : hasCRLF l = false) :
    splitCRLF (l ++ '\r' :: '\n' :: s) = l :: splitCRLF s := by
  induction l with
  | nil =>
    simp only [List.nil_append]
    rw [splitCRLF.eq_2]
  | cons c rest ih =>
    have hg := noCRLF_guard h
    have hg2 : ∀ r', c = '\r' →
        rest ++ '\r' :: '\n' :: s = '\n' :: r' → False := by
      intro r' hc happ
      cases rest with
      | nil =>
        simp only [List.nil_append] at happ
        injection happ with h1 _
        exact absurd h1 (by decide)
      | cons d rest' =>
        simp only [List.cons_append] at happ
        injection happ with h1 _
        exact hg rest' hc (by rw [h1])
    rw [List.cons_append, splitCRLF.eq_3 c _ hg2,
      ih (hasCRLF_cons_false h)]

/-- Joining CRLF-free lines and splitting again recovers the lines. -/
theorem splitCRLF_joinCRLF : ∀ lines : List (List Char), lines ≠ [] →
    (∀ l ∈ lines, hasCRLF l = false) →
    splitCRLF (joinCRLF lines) = lines := by
  intro lines
  induction lines with
  | nil => intro h; exact absurd rfl h
  | cons l rest ih =>
    intro _ hall
    cases rest with
    | nil =>
      rw [show joinCRLF [l] = l from rfl]
      exact splitCRLF_of_not_hasCRLF (hall l (by simp))
    | cons l2 ls =>
      rw [show joinCRLF (l :: l2 :: ls) =
        l ++ '\r' :: '\n' :: joinCRLF (l2 :: ls) from rfl]
      rw [splitCRLF_append _ (hall l (by simp))]
      rw [ih (by simp) (fun x hx => hall x (by simp [hx]))]

/-- Dot-stuffing a line does not create a CR LF pair. -/
theorem hasCRLF_stuffLine {l : List Char} (h : hasCRLF l = false) :
    hasCRLF (stuffLine l) = false := by
  rw [stuffLine]
  split
  · rw [hasCRLF.eq_2 '.' l (by intro r' hc _; exact absurd hc (by decide))]
    exact h
  · exact h

/-- On a document assembled from CRLF-free lines, `dotStuff` maps the
stuffing transform over the lines. -/
theorem dotStuff_joinCRLF {lines : List (List Char)} (hne : lines ≠ [])
    (hall : ∀ l ∈ lines, hasCRLF l = false) :
    dotStuff (joinCRLF lines) = joinCRLF (lines.map stuffLine) := by
  rw [dotStuff, splitCRLF_joinCRLF lines hne hall]

/-- Stuffed lines of CRLF-free lines are CRLF-free. -/
theorem hasCRLF_map_stuffLine {lines : List (List Char)}
    (hall : ∀ l ∈ lines, hasCRLF l = false) :
    ∀ l ∈ lines.map stuffLine, hasCRLF l = false := by
  intro x hx
  obtain ⟨y, hy, rfl⟩ := List.mem_map.mp hx
  exact hasCRLF_stuffLine (hall y hy)

/-- C5: dot-stuffing is exactly split-on-CRLF, prefix `.`-initial lines
with one more `.`, rejoin: the defining equation holds for every document;
on the spec's examples a line `.` becomes `..` and `..Two` becomes
`...Two`; lines not starting with `.` are unchanged; and the function is
not idempotent — on any document (assembled from CRLF-free lines)
containing a line that starts with `.`, applying it twice adds two dots to
that line, so the double application differs from the single one. -/
theorem c5_dot_stuffing :
    (∀ m : List Char, dotStuff m = joinCRLF ((splitCRLF m).map stuffLine)) ∧
    dotStuffStr ("A\r\n.\r\n..Two\r\nB") = "A\r\n..\r\n...Two\r\nB" ∧
    (∀ l : List Char, l.head? = some '.' → stuffLine l = '.' :: l) ∧
    (∀ l : List Char, l.head? ≠ some '.' → stuffLine l = l) ∧
    (∀ l : List Char, l.head? = some '.' →
      stuffLine (stuffLine l) = '.' :: '.' :: l) ∧
    (∀ lines : List (List Char), lines ≠ [] →
      (∀ l ∈ lines, hasCRLF l = false) →
      splitCRLF (dotStuff (joinCRLF lines)) = lines.map stuffLine ∧
      splitCRLF (dotStuff (dotStuff (joinCRLF lines))) =
        (lines.map stuffLine).map stuffLine) ∧
    (∀ (lines : List (List Char)) (i : ℕ) (l : List Char),
      lines[i]? = some l → (∀ l' ∈ lines, hasCRLF l' = false) →
      l.head? = some '.' →
      dotStuff (dotStuff (joinCRLF lines)) ≠ dotStuff (joinCRLF lines)) := by
  have hstuff : ∀ l : List Char, l.head? = some '.' → stuffLine l = '.' :: l :=
    fun l h => by simp [stuffLine, h]
  have hdouble : ∀ lines : List (List Char), lines ≠ [] →
      (∀ l ∈ lines, hasCRLF l = false) →
      splitCRLF (dotStuff (joinCRLF lines)) = lines.map stuffLine ∧
      splitCRLF (dotStuff (dotStuff (joinCRLF lines))) =
        (lines.map stuffLine).map stuffLine := by
    intro lines hne hall
    have hne2 : lines.map stuffLine ≠ [] := by simpa using hne
    have hall2 := hasCRLF_map_stuffLine hall
    constructor
    · rw [dotStuff_joinCRLF hne hall, splitCRLF_joinCRLF _ hne2 hall2]
    · rw [dotStuff_joinCRLF hne hall, dotStuff_joinCRLF hne2 hall2,
        splitCRLF_joinCRLF _ (by simpa using hne2)
          (hasCRLF_map_stuffLine hall2)]
  refine ⟨fun m => rfl, by decide, hstuff, fun l h => by simp [stuffLine, h],
    ?_, hdouble, ?_⟩
  · intro l h
    rw [hstuff l h, hstuff ('.' :: l) (by simp)]
  · intro lines i l hget hall hhead heq
    have hne : lines ≠ [] := by
      intro hnil
      rw [hnil] at hget
      exact absurd hget (by simp)
    obtain ⟨h1, h2⟩ := hdouble lines hne hall
    rw [heq, h1] at h2
    have hcongr := congrArg (fun xs : List (List Char) => xs[i]?) h2
    simp only [List.getElem?_map, hget, Option.map_some'] at hcongr
    rw [hstuff l hhead, hstuff ('.' :: l) (by simp)] at hcongr
    have hlen := congrArg List.length (Option.some.inj hcongr)
    simp at hlen

/-- Witness for C5 on the concrete document `".": "A"` with a dot line. -/
theorem c5_dot_stuffing_witness :
    splitCRLF (dotStuff (joinCRLF [['.'], ['A']])) = [['.', '.'], ['A']] ∧
    splitCRLF (dotStuff (dotStuff (joinCRLF [['.'], ['A']]))) =
      [['.', '.', '.'], ['A']] ∧
    dotStuff (dotStuff (joinCRLF [['.'], ['A']])) ≠
      dotStuff (joinCRLF [['.'], ['A']]) := by
  obtain ⟨h1, h2⟩ := c5_dot_stuffing.2.2.2.2.2.1 [['.'], ['A']]
    (by decide) (by decide)
  exact ⟨h1.trans (by decide), h2.trans (by decide),
    c5_dot_stuffing.2.2.2.2.2.2 [['.'], ['A']] 0 ['.']
      (by decide) (by decide) (by decide)⟩

/-- `readLine` only ever fails with `closed` (the malformed error comes
from the code check, not from line assembly). -/
theorem readLine_error_closed : ∀ {buffer : List Char} {chunks : Chunks}
    {e : ReadErr}, readLine buffer chunks = .error e → e = .closed := by
  intro buffer chunks
  induction chunks generalizing buffer with
  | nil =>
    intro e h
    rw [readLine] at h
    rcases hd : buffer.dropWhile (· ≠ '\n') with _ | ⟨x, restBuf⟩ <;>
      simp only [hd] at h
    · injection h with h1
      exact h1.symm
    · exact absurd h (by simp)
  | cons c rest ih =>
    intro e h
    rw [readLine] at h
    rcases hd : buffer.dropWhile (· ≠ '\n') with _ | ⟨x, restBuf⟩ <;>
      simp only [hd] at h
    · exact ih h
    · exact absurd h (by simp)

/-- `readMulti` never produces a malformed-response error. -/
theorem readMulti_no_malformed (codeStr : List Char) :
    ∀ (buffer : List Char) (chunks : Chunks) (acc : List (List Char))
    (l : List Char),
    readMulti codeStr buffer chunks acc ≠ .error (.malformed l) := by
  intro buffer chunks acc
  induction buffer, chunks, acc using readMulti.induct codeStr with
  | case1 buffer chunks acc e hrl =>
    intro l h
    rw [readMulti, hrl] at h
    injection h with h1
    rw [readLine_error_closed hrl] at h1
    exact absurd h1 (by simp)
  | case2 buffer chunks acc line b' cs' hrl hpre =>
    intro l h
    rw [readMulti, hrl] at h
    simp only [hpre, if_true] at h
    exact absurd h (by simp)
  | case3 buffer chunks acc line b' cs' hrl hpre ih =>
    intro l h
    rw [readMulti, hrl] at h
    simp only [if_neg hpre] at h
    exact ih l h

/-- C3 as stated is false: the reader accepts a first line whose first
three characters are not ASCII digits.  `"+25 ok"` begins with a plus sign,
yet `Number("+25")` is the finite value 25 and the reply is returned with
code 25 instead of being rejected as malformed. -/
theorem c3_counterexample :
    readSmtpResponse [("+25 ok\r\n").data] =
      .ok (⟨25, [("+25 ok").data]⟩, []) ∧
    ¬ (("+25 ok").data.take 3).all isDigitC = true := by
  exact ⟨by decide, by decide⟩

/-- C3 amended: given that a first line is assembled at all, the reader
fails with a malformed-response error exactly when the first line's
3-character slice does not convert to a finite JavaScript number or is
shorter than 3 characters — leading whitespace, a sign, exponent or
decimal forms within 3 characters are accepted. -/
theorem c3_malformed_condition (chunks : Chunks) (first b1 : List Char)
    (cs1 : Chunks) (h : readLine [] chunks = .ok (first, b1, cs1)) :
    (∃ l, readSmtpResponseAux chunks = .error (.malformed l)) ↔
      ¬(jsIsFinite (stringToNumber (first.take 3)) = true ∧
        (first.take 3).length = 3) := by
  simp only [readSmtpResponseAux, h]
  by_cases hc : jsIsFinite (stringToNumber (first.take 3)) = false ∨
      (first.take 3).length ≠ 3
  · simp only [if_pos hc]
    constructor
    · intro _
      rintro ⟨hf, hl⟩
      rcases hc with hc | hc
      · rw [hf] at hc
        exact absurd hc (by simp)
      · exact hc hl
    · intro _
      exact ⟨first, rfl⟩
  · have hfin : jsIsFinite (stringToNumber (first.take 3)) = true := by
      by_contra hbf
      exact hc (Or.inl (by simpa using hbf))
    have hlen : (first.take 3).length = 3 := by
      by_contra hb
      exact hc (Or.inr hb)
    refine iff_of_false ?_ (by simp [hfin, hlen])
    rintro ⟨l, hl⟩
    rw [if_neg hc] at hl
    split at hl
    · rcases hm : readMulti (first.take 3) b1 cs1 [first] with e | ⟨lines, b2, cs2⟩
      · rw [hm] at hl
        injection hl with h1
        have : e = .malformed l := h1
        rw [this] at hm
        exact readMulti_no_malformed _ b1 cs1 [first] l hm
      · rw [hm] at hl
        exact absurd hl (by simp)
    · exact absurd hl (by simp)

/-- Witness for C3's amended condition on the `"+25 ok"` stream. -/
theorem c3_malformed_condition_witness :
    ¬ ∃ l, readSmtpResponseAux [("+25 ok\r\n").data] =
      .error (.malformed l) := by
  rw [c3_malformed_condition [("+25 ok\r\n").data] ("+25 ok").data [] []
    (by decide)]
  decide

/-- Shape of a successful multi-line read: the collected lines are the
accumulator, then intermediate lines none of which starts with
`code + space`, then a final line that does. -/
theorem readMulti_shape (codeStr : List Char) :
    ∀ (buffer : List Char) (chunks : Chunks) (acc lines : List (List Char))
    (b' : List Char) (cs' : Chunks),
    readMulti codeStr buffer chunks acc = .ok (lines, b', cs') →
      ∃ pre last, lines = acc ++ pre ++ [last] ∧
        (codeStr ++ [' ']).isPrefixOf last = true ∧
        ∀ l ∈ pre, (codeStr ++ [' ']).isPrefixOf l = false := by
  intro buffer chunks acc
  induction buffer, chunks, acc using readMulti.induct codeStr with
  | case1 buffer chunks acc e hrl =>
    intro lines b' cs' h
    rw [readMulti, hrl] at h
    exact absurd h (by simp)
  | case2 buffer chunks acc line b2 cs2 hrl hpre =>
    intro lines b' cs' h
    rw [readMulti, hrl] at h
    simp only [hpre, if_true] at h
    injection h with h1
    injection h1 with hlines hrest
    exact ⟨[], line, by simp [← hlines], hpre, by simp⟩
  | case3 buffer chunks acc line b2 cs2 hrl hpre ih =>
    intro lines b' cs' h
    rw [readMulti, hrl] at h
    simp only [if_neg hpre] at h
    obtain ⟨pre, last, hsh, hlast, hmid⟩ := ih lines b' cs' h
    refine ⟨line :: pre, last, ?_, hlast, ?_⟩
    · simpa using hsh
    · intro l hl
      rcases List.mem_cons.mp hl with rfl | hl
      · cases hb : (codeStr ++ [' ']).isPrefixOf l with
        | false => rfl
        | true => exact absurd hb hpre
      · exact hmid l hl

/-- C4 as stated is false: the reader returns a reply whose (single, last)
line `"250OK"` does not have the 3-digit code followed by a space — the
single-line path never checks the character after the code. -/
theorem c4_counterexample :
    readSmtpResponse [("250OK\r\n").data] =
      .ok (⟨250, [("250OK").data]⟩, []) ∧
    ¬ ((("250OK").data.take 3 ++ [' ']).isPrefixOf
      (("250OK").data) = true) := by
  exact ⟨by decide, by decide⟩

/-- C4 amended: every reply the reader returns has non-empty `lines`; when
the first line marks a multi-line reply (4th character `-`), the last line
starts with the 3-character code slice followed by a space and reading
stopped exactly there — no intermediate line after the first has that
prefix (intermediate lines are otherwise unconstrained); a single-line
reply is returned as just its first line, with no requirement of a space
after the code. -/
theorem c4_reply_shape (chunks : Chunks) (r : RawReply) (rest : Chunks)
    (h : readSmtpResponse chunks = .ok (r, rest)) :
    r.lines ≠ [] ∧
    ∀ first, r.lines.head? = some first →
      (first.get? 3 = some '-' →
        ∃ pre last, r.lines = first :: pre ++ [last] ∧
          (first.take 3 ++ [' ']).isPrefixOf last = true ∧
          ∀ l ∈ pre, (first.take 3 ++ [' ']).isPrefixOf l = false) ∧
      (first.get? 3 ≠ some '-' → r.lines = [first]) := by
  rw [readSmtpResponse] at h
  rcases haux : readSmtpResponseAux chunks with e | ⟨⟨q, lines⟩, b2, cs2⟩
  · rw [haux] at h
    exact absurd h (by simp)
  rw [haux] at h
  injection h with h1
  injection h1 with hr hrest
  rw [readSmtpResponseAux] at haux
  rcases hrl : readLine [] chunks with e | ⟨first0, b1, cs1⟩
  · rw [hrl] at haux
    exact absurd haux (by simp)
  rw [hrl] at haux
  simp only at haux
  split at haux
  · exact absurd haux (by simp)
  · split at haux
    · rcases hm : readMulti (first0.take 3) b1 cs1 [first0] with e |
        ⟨lines2, b3, cs3⟩
      · rw [hm] at haux
        exact absurd haux (by simp)
      rw [hm] at haux
      injection haux with h2
      injection h2 with hrep hrest2
      obtain ⟨pre, last, hsh, hlast, hmid⟩ :=
        readMulti_shape (first0.take 3) b1 cs1 [first0] lines2 b3 cs3 hm
      have hlines : r.lines = first0 :: (pre ++ [last]) := by
        rw [← hr, ← hrep, hsh]
        simp
      refine ⟨by simp [hlines], ?_⟩
      intro first hfirst
      rw [hlines] at hfirst
      simp only [List.head?_cons, Option.some.injEq] at hfirst
      subst hfirst
      rename_i hdash
      refine ⟨fun _ => ⟨pre, last, hlines, hlast, hmid⟩, fun hnd => ?_⟩
      exact absurd hdash hnd
    · injection haux with h2
      injection h2 with hrep hrest2
      have hlines : r.lines = [first0] := by rw [← hr, ← hrep]
      refine ⟨by simp [hlines], ?_⟩
      intro first hfirst
      rw [hlines] at hfirst
      simp only [List.head?_cons, Option.some.injEq] at hfirst
      subst hfirst
      rename_i hdash
      exact ⟨fun hd => absurd hd hdash, fun _ => hlines⟩

/-- Witness for C4's amended shape on the concrete single-line reply
`"250OK"`. -/
theorem c4_reply_shape_witness :
    (⟨250, [("250OK").data]⟩ : RawReply).lines ≠ [] ∧
    ∀ first, (⟨250, [("250OK").data]⟩ : RawReply).lines.head? = some first →
      (first.get? 3 = some '-' →
        ∃ pre last, (⟨250, [("250OK").data]⟩ : RawReply).lines =
            first :: pre ++ [last] ∧
          (first.take 3 ++ [' ']).isPrefixOf last = true ∧
          ∀ l ∈ pre, (first.take 3 ++ [' ']).isPrefixOf l = false) ∧
      (first.get? 3 ≠ some '-' →
        (⟨250, [("250OK").data]⟩ : RawReply).lines = [first]) :=
  c4_reply_shape [("250OK\r\n").data] ⟨250, [("250OK").data]⟩ []
    (by decide)

/-- The chunks remaining after a line read are a suffix of the incoming
chunk list: whole undelivered reads. -/
theorem readLine_suffix : ∀ {buffer : List Char} {chunks : Chunks}
    {l b' : List Char} {cs' : Chunks},
    readLine buffer chunks = .ok (l, b', cs') → ∃ k, cs' = chunks.drop k := by
  intro buffer chunks
  induction chunks generalizing buffer with
  | nil =>
    intro l b' cs' h
    rw [readLine] at h
    rcases hd : buffer.dropWhile (· ≠ '\n') with _ | ⟨x, rb⟩ <;>
      simp only [hd] at h
    · exact absurd h (by simp)
    · injection h with h1
      injection h1 with _ h2
      injection h2 with _ h3
      exact ⟨0, h3.symm⟩
  | cons c rest ih =>
    intro l b' cs' h
    rw [readLine] at h
    rcases hd : buffer.dropWhile (· ≠ '\n') with _ | ⟨x, rb⟩ <;>
      simp only [hd] at h
    · obtain ⟨k, hk⟩ := ih h
      exact ⟨k + 1, by simpa using hk⟩
    · injection h with h1
      injection h1 with _ h2
      injection h2 with _ h3
      exact ⟨0, h3.symm⟩

/-- The chunks remaining after the multi-line loop are a suffix of the
incoming chunk list. -/
theorem readMulti_suffix (codeStr : List Char) :
    ∀ (buffer : List Char) (chunks : Chunks) (acc lines : List (List Char))
    (b' : List Char) (cs' : Chunks),
    readMulti codeStr buffer chunks acc = .ok (lines, b', cs') →
      ∃ k, cs' = chunks.drop k := by
  intro buffer chunks acc
  induction buffer, chunks, acc using readMulti.induct codeStr with
  | case1 buffer chunks acc e hrl =>
    intro lines b' cs' h
    rw [readMulti, hrl] at h
    exact absurd h (by simp)
  | case2 buffer chunks acc line b2 cs2 hrl hpre =>
    intro lines b' cs' h
    rw [readMulti, hrl] at h
    simp only [hpre, if_true] at h
    injection h with h1
    injection h1 with _ h2
    injection h2 with _ h3
    subst h3
    exact readLine_suffix hrl
  | case3 buffer chunks acc line b2 cs2 hrl hpre ih =>
    intro lines b' cs' h
    rw [readMulti, hrl] at h
    simp only [if_neg hpre] at h
    obtain ⟨k2, hk2⟩ := ih lines b' cs' h
    obtain ⟨k1, hk1⟩ := readLine_suffix hrl
    refine ⟨k2 + k1, ?_⟩
    rw [hk2, hk1, List.drop_drop, Nat.add_comm]

/-- The chunks remaining after one whole `readSmtpResponse` are a suffix of
the incoming chunk list. -/
theorem readSmtpResponseAux_suffix {chunks : Chunks} {r : RawReply}
    {b' : List Char} {cs' : Chunks}
    (h : readSmtpResponseAux chunks = .ok (r, b', cs')) :
    ∃ k, cs' = chunks.drop k := by
  rw [readSmtpResponseAux] at h
  rcases hrl : readLine [] chunks with e | ⟨first, b1, cs1⟩
  · rw [hrl] at h
    exact absurd h (by simp)
  rw [hrl] at h
  simp only at h
  split at h
  · exact absurd h (by simp)
  split at h
  · rcases hm : readMulti (first.take 3) b1 cs1 [first] with e |
      ⟨lines2, b3, cs3⟩
    · rw [hm] at h
      exact absurd h (by simp)
    · rw [hm] at h
      injection h with h1
      injection h1 with _ h2
      injection h2 with _ h3
      subst h3
      obtain ⟨k2, hk2⟩ := readMulti_suffix (first.take 3) b1 cs1 [first]
        lines2 b3 cs3 hm
      obtain ⟨k1, hk1⟩ := readLine_suffix hrl
      exact ⟨k2 + k1, by rw [hk2, hk1, List.drop_drop, Nat.add_comm]⟩
  · injection h with h1
    injection h1 with _ h2
    injection h2 with _ h3
    subst h3
    exact readLine_suffix hrl

/-- C9: the line buffer is local to one read-reply operation.  Whatever a
read delivers beyond the final line of the current reply is discarded when
the operation returns: the stream handed to the next operation is a plain
suffix of the incoming chunk list (never a partial chunk), and concretely a
chunk carrying `"250 OK\r\n220 EXTRA\r\n"` yields the single-line 250
reply with an empty remaining stream, so a subsequent read finds the stream
closed rather than the buffered `220` bytes. -/
theorem c9_reader_buffer_locality :
    (∀ (chunks : Chunks) (r : RawReply) (rest : Chunks),
      readSmtpResponse chunks = .ok (r, rest) → ∃ k, rest = chunks.drop k) ∧
    readSmtpResponse [("250 OK\r\n220 EXTRA\r\n").data] =
      .ok (⟨250, [("250 OK").data]⟩, []) ∧
    readSmtpResponse ([] : Chunks) = .error .closed := by
  refine ⟨?_, by decide, by decide⟩
  intro chunks r rest h
  rw [readSmtpResponse] at h
  rcases haux : readSmtpResponseAux chunks with e | ⟨r2, b2, cs2⟩
  · rw [haux] at h
    exact absurd h (by simp)
  · rw [haux] at h
    injection h with h1
    injection h1 with _ h2
    subst h2
    exact readSmtpResponseAux_suffix haux

/-- Witness for C9's suffix property on the concrete overfull chunk. -/
theorem c9_reader_buffer_locality_witness :
    ∃ k, ([] : Chunks) = [("250 OK\r\n220 EXTRA\r\n").data].drop k :=
  c9_reader_buffer_locality.1 [("250 OK\r\n220 EXTRA\r\n").data]
    ⟨250, [("250 OK").data]⟩ [] (by decide)

/-- The `to` field of `mailer.send()` input: `string | string[]`. -/
inductive ToField where
  | single (s : String) : ToField
  | many (l : List String) : ToField
deriving DecidableEq

/-- The raw input of `mailer.send()` (`SendMailInput` of `client.ts`;
`to` is a reserved token, hence `toField`). -/
structure SendMailInput where
  fromAddr : String
  toField : ToField
  subject : String
  text : Option String
  html : Option String
deriving DecidableEq

/-- The zod schema's `to` branch: a non-empty string, or a non-empty array
of non-empty strings. -/
def validToField : ToField → Bool
  | .single s => decide (1 ≤ s.length)
  | .many l => decide (1 ≤ l.length) && l.all (fun s => decide (1 ≤ s.length))

/-- `validateSendMailInput` of `validate-send-mail-input.ts`, as the
pass/fail verdict of `sendMailInputSchema.safeParse`: `from` and `subject`
non-empty, `to` valid, and `text`/`html` non-empty when supplied. -/
def validateSendMailInput (i : SendMailInput) : Bool :=
  decide (1 ≤ i.fromAddr.length) && validToField i.toField &&
    decide (1 ≤ i.subject.length) &&
    (match i.text with
     | some t => decide (1 ≤ t.length)
     | none => true) &&
    (match i.html with
     | some h => decide (1 ≤ h.length)
     | none => true)

/-- The `send` closure of `createMailer` in `client.ts`: validate the
input (throwing a validation error before anything touches the network),
normalise `to` to an array, and run `smtpSendMail`. -/
def mailerSend (cfg : Config) (input : SendMailInput) (uuid : String)
    (replies : List Resp) : Out Unit :=
  if validateSendMailInput input then
    let toList := match input.toField with
      | .single s => [s]
      | .many l => l
    smtpSendMail cfg
      ⟨input.fromAddr, toList, input.subject, input.text, input.html⟩
      uuid replies
  else .fail .validation ⟨replies, []⟩

/-- C10: `send` rejects with a validation error — before any connection is
opened or command written (the event trace is empty) — every input whose
subject is empty, whose from is empty, whose to is an empty string, an
empty list or a list containing an empty string, or whose supplied text or
html is the empty string. -/
theorem c10_send_input_validation (cfg : Config) (input : SendMailInput)
    (uuid : String) (replies : List Resp)
    (h : input.subject = "" ∨ input.fromAddr = "" ∨
      input.toField = .single "" ∨ input.toField = .many [] ∨
      (∃ l, input.toField = .many l ∧ "" ∈ l) ∨
      input.text = some "" ∨ input.html = some "") :
    mailerSend cfg input uuid replies = .fail .validation ⟨replies, []⟩ := by
  have hv : validateSendMailInput input = false := by
    rcases h with h | h | h | h | ⟨l, hl, hm⟩ | h | h
    · simp [validateSendMailInput, h]
    · simp [validateSendMailInput, h]
    · simp [validateSendMailInput, validToField, h]
    · simp [validateSendMailInput, validToField, h]
    · have hall : l.all (fun s => decide (1 ≤ s.length)) = false :=
        List.all_eq_false.mpr ⟨"", hm, by simp⟩
      simp [validateSendMailInput, validToField, hl, hall]
    · simp [validateSendMailInput, h]
    · simp [validateSendMailInput, h]
  rw [mailerSend, if_neg (by simp [hv])]

/-- Witness for C10 on an input with an empty subject. -/
theorem c10_send_input_validation_witness :
    mailerSend ⟨"h", 2525, none, none, none⟩
        ⟨"a@x.com", .single "b@y.com", "", some "T", none⟩ "uuid" [] =
      .fail .validation ⟨[], []⟩ :=
  c10_send_input_validation _ _ _ _ (Or.inl rfl)

end CfMailer
